import Mathlib

/-!
Verification development for the npm-practice-app command-equivalence engine
(`src/core/commands.ts` and `src/core/parser.ts`).

The TypeScript source is shallowly embedded: every definition below mirrors a
source function or data literal.  JavaScript strings are modelled as Lean
`String` values, and all character-level operations (`toLowerCase`,
`startsWith`, `includes`, `split`, `trim`) are defined over `String.data`
(the list of characters) so that they are amenable to induction.  The
embedding is ASCII-faithful: the catalog and every input exercised by the
theorems is ASCII, where JavaScript's and Lean's case conversion and
whitespace classification agree.
-/

namespace NpmPractice

/-- JS `s.toLowerCase()` (ASCII-faithful). -/
def toLowerStr (s : String) : String := String.mk (s.data.map Char.toLower)

/-- JS `s.startsWith(c)` for a single-character argument. -/
def startsWithChar (s : String) (c : Char) : Bool :=
  match s.data with
  | [] => false
  | a :: _ => a == c

/-- JS `s.includes(c)` for a single-character argument. -/
def strContainsChar (s : String) (c : Char) : Bool := s.data.contains c

/-- JS `s.split('=')[0]`: the characters before the first `=`. -/
def beforeEq (s : String) : String := String.mk (s.data.takeWhile (fun c => c ≠ '='))

/-- JS `s.trim()` (ASCII whitespace). -/
def trimStr (s : String) : String :=
  String.mk (((s.data.dropWhile Char.isWhitespace).reverse.dropWhile Char.isWhitespace).reverse)

/-! ## Command catalog (`commands.ts`)

`CommandParameter` and `NpmCommand` mirror the `CommandParameter` and
`NpmCommand` interfaces.  The optional TS fields `aliases?: string[]` and
`requiresValue?: boolean` are modelled with their absent-value defaults
(`[]` and `false`), matching how the source consumes them (`aliases?.includes`
is falsy on `undefined`, `requiresValue` is used as a truthy test).
The `mockOutput` field (static presentation text, consumed only by
`getMockOutput`, never by the parser or the comparator) is not modelled. -/

structure CommandParameter where
  name : String
  aliases : List String := []
  description : String
  requiresValue : Bool := false
deriving DecidableEq, Repr

structure NpmCommand where
  name : String
  aliases : List String := []
  description : String
  parameters : List CommandParameter
deriving DecidableEq, Repr

/-- The `NPM_COMMANDS` catalog literal from `commands.ts`, in source order. -/
def NPM_COMMANDS : List NpmCommand := [
  { name := "init", aliases := ["create"], description := "Create a package.json file",
    parameters := [
      { name := "-y", aliases := ["--yes"], description := "Use default values", requiresValue := false },
      { name := "--scope", description := "Set package scope", requiresValue := true }] },
  { name := "install", aliases := ["i", "add"], description := "Install packages",
    parameters := [
      { name := "-g", aliases := ["--global"], description := "Install globally", requiresValue := false },
      { name := "--save-dev", aliases := ["-D"], description := "Save to devDependencies", requiresValue := false },
      { name := "--save", aliases := ["-S"], description := "Save to dependencies", requiresValue := false },
      { name := "--save-optional", aliases := ["-O"], description := "Save to optionalDependencies", requiresValue := false },
      { name := "--no-save", description := "Prevent saving to dependencies", requiresValue := false },
      { name := "--save-exact", aliases := ["-E"], description := "Save exact version", requiresValue := false },
      { name := "--save-bundle", aliases := ["-B"], description := "Save to bundleDependencies", requiresValue := false }] },
  { name := "uninstall", aliases := ["remove", "rm", "r", "un", "unlink"], description := "Remove packages",
    parameters := [
      { name := "-g", aliases := ["--global"], description := "Uninstall globally", requiresValue := false },
      { name := "--save", aliases := ["-S"], description := "Remove from dependencies", requiresValue := false },
      { name := "--save-dev", aliases := ["-D"], description := "Remove from devDependencies", requiresValue := false }] },
  { name := "update", aliases := ["up", "upgrade"], description := "Update packages",
    parameters := [
      { name := "-g", aliases := ["--global"], description := "Update globally", requiresValue := false },
      { name := "--save", aliases := ["-S"], description := "Update and save to dependencies", requiresValue := false }] },
  { name := "list", aliases := ["ls", "ll", "la"], description := "List installed packages",
    parameters := [
      { name := "-g", aliases := ["--global"], description := "List global packages", requiresValue := false },
      { name := "--depth", description := "Max depth of tree", requiresValue := true },
      { name := "--json", description := "Output as JSON", requiresValue := false }] },
  { name := "run", aliases := ["run-script"], description := "Run a script from package.json",
    parameters := [
      { name := "--silent", description := "Suppress output", requiresValue := false }] },
  { name := "test", aliases := ["t", "tst"], description := "Run tests", parameters := [] },
  { name := "start", description := "Start the application", parameters := [] },
  { name := "version", aliases := ["v"], description := "Display npm version",
    parameters := [
      { name := "--json", description := "Output as JSON", requiresValue := false }] },
  { name := "publish", description := "Publish a package to the registry",
    parameters := [
      { name := "--access", description := "Set access level (public/restricted)", requiresValue := true },
      { name := "--tag", description := "Tag to publish", requiresValue := true },
      { name := "--dry-run", description := "Test without publishing", requiresValue := false }] },
  { name := "unpublish", description := "Remove a package from the registry",
    parameters := [
      { name := "--force", aliases := ["-f"], description := "Force unpublish", requiresValue := false }] },
  { name := "search", aliases := ["s", "se", "find"], description := "Search for packages",
    parameters := [
      { name := "--long", description := "Display full package descriptions", requiresValue := false },
      { name := "--json", description := "Output as JSON", requiresValue := false }] },
  { name := "view", aliases := ["info", "show", "v"], description := "View package information",
    parameters := [
      { name := "--json", description := "Output as JSON", requiresValue := false }] },
  { name := "outdated", description := "Check for outdated packages",
    parameters := [
      { name := "-g", aliases := ["--global"], description := "Check global packages", requiresValue := false },
      { name := "--json", description := "Output as JSON", requiresValue := false }] },
  { name := "audit", description := "Run security audit",
    parameters := [
      { name := "--fix", description := "Automatically fix vulnerabilities", requiresValue := false },
      { name := "--json", description := "Output as JSON", requiresValue := false },
      { name := "--audit-level", description := "Minimum level to exit with error", requiresValue := true }] },
  { name := "config", aliases := ["c"], description := "Manage npm configuration",
    parameters := [
      { name := "set", description := "Set config value", requiresValue := true },
      { name := "get", description := "Get config value", requiresValue := true },
      { name := "delete", description := "Delete config value", requiresValue := true },
      { name := "list", description := "List all config", requiresValue := false },
      { name := "--global", aliases := ["-g"], description := "Use global config", requiresValue := false }] },
  { name := "cache", description := "Manage npm cache",
    parameters := [
      { name := "clean", description := "Clean cache", requiresValue := false },
      { name := "verify", description := "Verify cache", requiresValue := false },
      { name := "--force", aliases := ["-f"], description := "Force operation", requiresValue := false }] },
  { name := "doctor", description := "Check npm environment", parameters := [] },
  { name := "prune", description := "Remove extraneous packages",
    parameters := [
      { name := "--production", description := "Remove devDependencies", requiresValue := false },
      { name := "--dry-run", description := "Show what would be removed", requiresValue := false }] },
  { name := "dedupe", aliases := ["ddp"], description := "Reduce package duplication", parameters := [] },
  { name := "link", aliases := ["ln"], description := "Create a symlink to a package",
    parameters := [
      { name := "--global", aliases := ["-g"], description := "Link globally", requiresValue := false }] },
  { name := "ci", aliases := ["clean-install", "ic"], description := "Clean install from package-lock", parameters := [] },
  { name := "exec", aliases := ["x"], description := "Execute a package binary",
    parameters := [
      { name := "--package", aliases := ["-p"], description := "Package to execute", requiresValue := true }] },
  { name := "explain", aliases := ["why"], description := "Explain why a package is installed", parameters := [] },
  { name := "fund", description := "Display funding information",
    parameters := [
      { name := "--json", description := "Output as JSON", requiresValue := false }] },
  { name := "help", aliases := ["?"], description := "Get help on npm", parameters := [] },
  { name := "help-search", description := "Search npm help documentation", parameters := [] },
  { name := "hook", description := "Manage registry hooks",
    parameters := [
      { name := "add", description := "Add hook", requiresValue := true },
      { name := "ls", description := "List hooks", requiresValue := false },
      { name := "rm", description := "Remove hook", requiresValue := true }] },
  { name := "org", description := "Manage organization",
    parameters := [
      { name := "set", description := "Set organization property", requiresValue := true },
      { name := "ls", description := "List organizations", requiresValue := false }] },
  { name := "owner", aliases := ["author"], description := "Manage package owners",
    parameters := [
      { name := "add", description := "Add owner", requiresValue := true },
      { name := "rm", description := "Remove owner", requiresValue := true },
      { name := "ls", description := "List owners", requiresValue := false }] },
  { name := "pack", description := "Create a tarball from a package",
    parameters := [
      { name := "--dry-run", description := "Test without creating tarball", requiresValue := false }] },
  { name := "ping", description := "Ping npm registry", parameters := [] },
  { name := "prefix", description := "Display prefix",
    parameters := [
      { name := "-g", aliases := ["--global"], description := "Display global prefix", requiresValue := false }] },
  { name := "profile", description := "Manage npm profile",
    parameters := [
      { name := "get", description := "Get profile property", requiresValue := false },
      { name := "set", description := "Set profile property", requiresValue := true }] },
  { name := "rebuild", aliases := ["rb"], description := "Rebuild a package", parameters := [] },
  { name := "repo", description := "Open package repository in browser", parameters := [] },
  { name := "restart", description := "Restart a package", parameters := [] },
  { name := "root", description := "Display npm root",
    parameters := [
      { name := "-g", aliases := ["--global"], description := "Display global root", requiresValue := false }] },
  { name := "set-script", description := "Set a package.json script", parameters := [] },
  { name := "shrinkwrap", description := "Lock dependencies", parameters := [] },
  { name := "star", description := "Mark a package as favorite", parameters := [] },
  { name := "stars", description := "View starred packages", parameters := [] },
  { name := "stop", description := "Stop a package", parameters := [] },
  { name := "team", description := "Manage organization teams",
    parameters := [
      { name := "create", description := "Create team", requiresValue := true },
      { name := "destroy", description := "Destroy team", requiresValue := true },
      { name := "add", description := "Add user to team", requiresValue := true },
      { name := "rm", description := "Remove user from team", requiresValue := true },
      { name := "ls", description := "List teams", requiresValue := false }] },
  { name := "token", description := "Manage authentication tokens",
    parameters := [
      { name := "list", description := "List tokens", requiresValue := false },
      { name := "create", description := "Create token", requiresValue := false },
      { name := "revoke", description := "Revoke token", requiresValue := true }] },
  { name := "unstar", description := "Unmark a package as favorite", parameters := [] },
  { name := "whoami", description := "Display npm username", parameters := [] },
  { name := "access", description := "Manage package access",
    parameters := [
      { name := "public", description := "Make package public", requiresValue := false },
      { name := "restricted", description := "Make package restricted", requiresValue := false },
      { name := "grant", description := "Grant access", requiresValue := true },
      { name := "revoke", description := "Revoke access", requiresValue := true }] },
  { name := "adduser", aliases := ["login", "add-user"], description := "Add a registry user account",
    parameters := [
      { name := "--registry", description := "Registry URL", requiresValue := true },
      { name := "--scope", description := "Scope for authentication", requiresValue := true }] },
  { name := "logout", description := "Log out of the registry",
    parameters := [
      { name := "--registry", description := "Registry URL", requiresValue := true },
      { name := "--scope", description := "Scope for authentication", requiresValue := true }] },
  { name := "bugs", aliases := ["issues"], description := "Open package bugs page in browser", parameters := [] },
  { name := "docs", aliases := ["home"], description := "Open package documentation in browser", parameters := [] },
  { name := "edit", description := "Edit an installed package", parameters := [] },
  { name := "explore", description := "Browse an installed package", parameters := [] },
  { name := "diff", description := "Show package diff", parameters := [] },
  { name := "dist-tag", aliases := ["dist-tags"], description := "Modify package distribution tags",
    parameters := [
      { name := "add", description := "Add tag", requiresValue := true },
      { name := "rm", description := "Remove tag", requiresValue := true },
      { name := "ls", description := "List tags", requiresValue := false }] },
  { name := "deprecate", description := "Deprecate a package version", parameters := [] },
  { name := "completion", description := "Tab completion for npm", parameters := [] },
  { name := "bin", description := "Display npm bin folder",
    parameters := [
      { name := "-g", aliases := ["--global"], description := "Display global bin folder", requiresValue := false }] },
  { name := "pkg", description := "Manage package.json",
    parameters := [
      { name := "get", description := "Get a field", requiresValue := true },
      { name := "set", description := "Set a field", requiresValue := true },
      { name := "delete", description := "Delete a field", requiresValue := true }] },
  { name := "query", description := "Query installed packages with CSS selectors", parameters := [] },
  { name := "sbom", description := "Generate a Software Bill of Materials",
    parameters := [
      { name := "--format", description := "Output format", requiresValue := true }] }]

/-! ## Parser (`parser.ts`) -/

/-- The `ParsedCommand` interface of `parser.ts`. -/
structure ParsedCommand where
  isValid : Bool
  command : Option NpmCommand := none
  parameters : List String
  packageNames : List String
  errorMessage : Option String := none
deriving DecidableEq, Repr

/-- The loop body of `normalizeCommandName`: the first catalog entry whose
canonical name equals, or whose alias list contains, the lowercased input. -/
def resolveCommand (input : String) : Option NpmCommand :=
  let inputLower := toLowerStr input
  NPM_COMMANDS.find? (fun cmd => cmd.name == inputLower || cmd.aliases.contains inputLower)

/-- `normalizeCommandName` from `parser.ts`: resolve a command token to its
canonical name through the catalog (case-insensitive, alias-aware); `none`
models the source's `null`. -/
def normalizeCommandName (input : String) : Option String :=
  (resolveCommand input).map (fun cmd => cmd.name)

/-- `normalizeParameter` from `parser.ts`: resolve a flag token against the
matched command's parameters (first parameter whose canonical name equals, or
whose alias list contains, the lowercased input); unknown flags are returned
verbatim. -/
def normalizeParameter (input : String) (command : NpmCommand) : String :=
  let inputLower := toLowerStr input
  match command.parameters.find? (fun param => param.name == inputLower || param.aliases.contains inputLower) with
  | some param => param.name
  | none => input

/-- The `paramDef` lookup inside the `parseCommand` argument loop
(`command.parameters.find(p => p.name === normalized || p.aliases?.includes(arg.toLowerCase()))`). -/
def findParamDef (command : NpmCommand) (normalized arg : String) : Option CommandParameter :=
  command.parameters.find? (fun p => p.name == normalized || p.aliases.contains (toLowerStr arg))

/-- The truthiness test `paramDef?.requiresValue` on an optional lookup result. -/
def requiresValueOf (paramDef : Option CommandParameter) : Bool :=
  (paramDef.map (fun p => p.requiresValue)).getD false

/-- The character loop of `smartSplit`: state `inQ` (`inQuotes`), `qc`
(`quoteChar`; consulted only while `inQ` is true, so the reset value is
immaterial and a space stands in for the source's empty string) and `cur`
(`current`, the token under construction). -/
def smartSplitAux (inQ : Bool) (qc : Char) (cur : List Char) : List Char → List (List Char)
  | [] => if cur = [] then [] else [cur]
  | c :: cs =>
    if (c = '"' ∨ c = '\'') ∧ inQ = false then
      smartSplitAux true c cur cs
    else if c = qc ∧ inQ = true then
      smartSplitAux false ' ' cur cs
    else if c = ' ' ∧ inQ = false then
      (if cur = [] then smartSplitAux false qc [] cs else cur :: smartSplitAux false qc [] cs)
    else
      smartSplitAux inQ qc (cur ++ [c]) cs

/-- `smartSplit` from `parser.ts`: split a command line on unquoted spaces,
treating a quoted span as part of one token and dropping the quote characters. -/
def smartSplit (input : String) : List String :=
  (smartSplitAux false ' ' [] input.data).map String.mk

/-- The `startIndex` logic of `parseCommand`: drop a leading token that
lowercases to `npm`. -/
def dropProgramName (parts : List String) : List String :=
  match parts with
  | [] => []
  | p :: rest => if toLowerStr p == "npm" then rest else parts

/-- The guard of the `packageNames.push(arg)` branch (lines 164-180 of
`parser.ts`): a non-flag token is appended unless the previous token is a
flag whose resolved parameter requires a value. -/
def packageTake (command : NpmCommand) (prev : Option String) : Bool :=
  match prev with
  | some prevArg =>
    if startsWithChar prevArg '-' then
      let prevNormalized := normalizeParameter prevArg command
      let prevParamDef := findParamDef command prevNormalized prevArg
      !(requiresValueOf prevParamDef)
    else true
  | none => true

/-- The argument-classification loop of `parseCommand` (lines 139-181 of
`parser.ts`), returning `(parameters, packageNames)`.  `prev` is `args[i-1]`
(`none` at the first iteration); when a value token is consumed the recursion
continues two tokens further with `prev` set to the consumed value, exactly
as the source's `i++` advances the scan past it. -/
def classifyArgs (command : NpmCommand) : Option String → List String → List String × List String
  | _, [] => ([], [])
  | prev, [arg] =>
    if startsWithChar arg '-' then
      if strContainsChar arg '=' then
        ([normalizeParameter (beforeEq arg) command], [])
      else
        ([normalizeParameter arg command], [])
    else
      ([], if packageTake command prev then [arg] else [])
  | prev, arg :: next :: rest2 =>
    if startsWithChar arg '-' then
      if strContainsChar arg '=' then
        let normalized := normalizeParameter (beforeEq arg) command
        let r := classifyArgs command (some arg) (next :: rest2)
        (normalized :: r.1, r.2)
      else
        let normalized := normalizeParameter arg command
        let paramDef := findParamDef command normalized arg
        if requiresValueOf paramDef = true ∧ startsWithChar next '-' = false then
          let r := classifyArgs command (some next) rest2
          (normalized :: r.1, r.2)
        else
          let r := classifyArgs command (some arg) (next :: rest2)
          (normalized :: r.1, r.2)
    else
      let r := classifyArgs command (some arg) (next :: rest2)
      (r.1, if packageTake command prev then arg :: r.2 else r.2)

/-- `parseCommand` after tokenization: the token-level part of the parser.
The final `none` branch models the source's non-null assertion
`NPM_COMMANDS.find(...)!`; it is unreachable because `normalizeCommandName`
only returns names of catalog entries (`find_resolved_command`). -/
def parseParts (parts : List String) : ParsedCommand :=
  match parts with
  | [] => { isValid := false, parameters := [], packageNames := [], errorMessage := some "Empty command" }
  | _ :: _ =>
    match dropProgramName parts with
    | [] => { isValid := false, parameters := [], packageNames := [], errorMessage := some "No command specified" }
    | commandName :: args =>
      match normalizeCommandName commandName with
      | none =>
        { isValid := false, parameters := [], packageNames := [],
          errorMessage := some ("Unknown command: " ++ commandName) }
      | some normalizedCommandName =>
        match NPM_COMMANDS.find? (fun cmd => cmd.name == normalizedCommandName) with
        | some command =>
          let r := classifyArgs command none args
          { isValid := true, command := some command, parameters := r.1, packageNames := r.2 }
        | none =>
          { isValid := false, parameters := [], packageNames := [],
            errorMessage := some ("Unknown command: " ++ commandName) }

/-- `parseCommand` from `parser.ts`. -/
def parseCommand (input : String) : ParsedCommand :=
  parseParts (smartSplit (trimStr input))

/-! ## Comparator (`commandsMatch`) -/

/-- The anonymous `{ matches, reason? }` result type of `commandsMatch`. -/
structure MatchResult where
  «matches» : Bool
  reason : Option String := none
deriving DecidableEq, Repr

/-- Lexicographic comparison of character lists by code point: the total
order underlying JS default `Array.prototype.sort` on (ASCII) strings. -/
def listCharLe : List Char → List Char → Bool
  | [], _ => true
  | _ :: _, [] => false
  | a :: as, b :: bs =>
    if a.toNat < b.toNat then true
    else if b.toNat < a.toNat then false
    else listCharLe as bs

/-- Code-point lexicographic string comparison. -/
def strLe (a b : String) : Bool := listCharLe a.data b.data

/-- The comparator relation used by `sortStrings`. -/
def strLeRel (a b : String) : Prop := strLe a b = true

instance : DecidableRel strLeRel :=
  fun a b => inferInstanceAs (Decidable (strLe a b = true))

/-- JS `[...arr].sort()` under the default string comparator: the sorted
permutation of the list (the sorting algorithm is immaterial, since the
sorted permutation under a fixed total order is unique). -/
def sortStrings (l : List String) : List String :=
  l.insertionSort strLeRel

/-- The `shortcutCommands` literal inside `commandsMatch`. -/
def shortcutCommands : List String := ["test", "start", "stop", "restart"]

/-- JS `p.command?.name || ''`. -/
def optCmdName (p : ParsedCommand) : String :=
  ((p.command.map (fun c => c.name)).getD "")

/-- `commandsMatch` from `parser.ts`.  The element-by-element loops over the
sorted lists are rendered as list equality of the sorted lists, which yields
the identical verdict and reason. -/
def commandsMatch (expected actual : ParsedCommand) : MatchResult :=
  if expected.isValid = false ∨ actual.isValid = false then
    { «matches» := false, reason := some "Invalid command" }
  else if optCmdName expected ∈ shortcutCommands ∧
      actual.command.map (fun c => c.name) = some "run" ∧
      optCmdName expected ∈ actual.packageNames then
    { «matches» := true }
  else if expected.command.map (fun c => c.name) = some "run" ∧
      expected.packageNames.length = 1 ∧
      expected.packageNames.headD "" ∈ shortcutCommands ∧
      actual.command.map (fun c => c.name) = some (expected.packageNames.headD "") then
    { «matches» := true }
  else if expected.command.map (fun c => c.name) ≠ actual.command.map (fun c => c.name) then
    { «matches» := false, reason := some "Different command" }
  else
    let expectedParams := sortStrings expected.parameters
    let actualParams := sortStrings actual.parameters
    if expectedParams.length ≠ actualParams.length then
      { «matches» := false, reason := some "Different number of parameters" }
    else if expectedParams ≠ actualParams then
      { «matches» := false, reason := some "Different parameters" }
    else
      let expectedPkgs := sortStrings expected.packageNames
      let actualPkgs := sortStrings actual.packageNames
      if expectedPkgs.length ≠ actualPkgs.length then
        { «matches» := false, reason := some "Different number of packages" }
      else if expectedPkgs ≠ actualPkgs then
        { «matches» := false, reason := some "Different package names" }
      else
        { «matches» := true }

/-! ## Reference definitions used to state the claims

`spaceSplitAux`/`spaceSplit` restate `smartSplit`'s behavior on quote-free
input in the simplest form (split on runs of the space character), and
`specSplitAux`/`specTokenize` follow the specification's words instead
(split on unquoted runs of any whitespace character); they are compared
against the source-embedded `smartSplit`.  `flagNoValue` and
`normFlagToken` name the conditions of the classification loop used by the
order-independence theorems. -/

/-- Splitting a character list on runs of the space character. -/
def spaceSplitAux (cur : List Char) : List Char → List (List Char)
  | [] => if cur = [] then [] else [cur]
  | c :: cs =>
    if c = ' ' then
      (if cur = [] then spaceSplitAux [] cs else cur :: spaceSplitAux [] cs)
    else
      spaceSplitAux (cur ++ [c]) cs

/-- Splitting on space runs, starting with an empty token. -/
def spaceSplit (l : List Char) : List (List Char) := spaceSplitAux [] l

/-- Modelled from the spec: the tokenizer described by the specification,
which splits on unquoted runs of any whitespace character (not only the
space character); identical to `smartSplitAux` except for the separator
test.  Used to compare the specified and the implemented tokenizer. -/
def specSplitAux (inQ : Bool) (qc : Char) (cur : List Char) : List Char → List (List Char)
  | [] => if cur = [] then [] else [cur]
  | c :: cs =>
    if (c = '"' ∨ c = '\'') ∧ inQ = false then
      specSplitAux true c cur cs
    else if c = qc ∧ inQ = true then
      specSplitAux false ' ' cur cs
    else if c.isWhitespace ∧ inQ = false then
      (if cur = [] then specSplitAux false qc [] cs else cur :: specSplitAux false qc [] cs)
    else
      specSplitAux inQ qc (cur ++ [c]) cs

/-- Modelled from the spec: whitespace-run tokenization of a string. -/
def specTokenize (input : String) : List String :=
  (specSplitAux false ' ' [] input.data).map String.mk

/-- A token that cannot trigger value consumption: if it is flag-like, its
parameter lookup does not demand a value. -/
def flagNoValue (command : NpmCommand) (t : String) : Prop :=
  startsWithChar t '-' = true →
    requiresValueOf (findParamDef command (normalizeParameter t command) t) = false

instance (command : NpmCommand) (t : String) : Decidable (flagNoValue command t) :=
  inferInstanceAs (Decidable (startsWithChar t '-' = true →
    requiresValueOf (findParamDef command (normalizeParameter t command) t) = false))

/-- The canonical flag recorded for a flag-like token by the classification
loop: the part before `=` is normalized when an `=` is present, otherwise
the whole token. -/
def normFlagToken (command : NpmCommand) (t : String) : String :=
  if strContainsChar t '=' then normalizeParameter (beforeEq t) command
  else normalizeParameter t command

/-! ## Order facts about the sorting comparator -/

theorem listCharLe_total : ∀ a b : List Char, listCharLe a b = true ∨ listCharLe b a = true
  | [], _ => Or.inl rfl
  | _ :: _, [] => Or.inr rfl
  | a :: as, b :: bs => by
    simp only [listCharLe]
    rcases Nat.lt_trichotomy a.toNat b.toNat with h | h | h
    · left; simp [h]
    · have h1 : ¬ a.toNat < b.toNat := by omega
      have h2 : ¬ b.toNat < a.toNat := by omega
      simpa [h1, h2] using listCharLe_total as bs
    · right; simp [h]

theorem listCharLe_trans : ∀ a b c : List Char,
    listCharLe a b = true → listCharLe b c = true → listCharLe a c = true
  | [], _, _, _, _ => rfl
  | _ :: _, [], _, hab, _ => by simp [listCharLe] at hab
  | _ :: _, _ :: _, [], _, hbc => by simp [listCharLe] at hbc
  | a :: as, b :: bs, c :: cs, hab, hbc => by
    simp only [listCharLe] at hab hbc ⊢
    rcases Nat.lt_trichotomy a.toNat b.toNat with h1 | h1 | h1
    · rcases Nat.lt_trichotomy b.toNat c.toNat with h2 | h2 | h2
      · simp [show a.toNat < c.toNat from by omega]
      · simp [show a.toNat < c.toNat from by omega]
      · simp [show ¬ b.toNat < c.toNat from by omega, h2] at hbc
    · rcases Nat.lt_trichotomy b.toNat c.toNat with h2 | h2 | h2
      · simp [show a.toNat < c.toNat from by omega]
      · simp only [show ¬ a.toNat < b.toNat from by omega,
          show ¬ b.toNat < a.toNat from by omega, if_neg, if_false, ite_false] at hab
        simp only [show ¬ b.toNat < c.toNat from by omega,
          show ¬ c.toNat < b.toNat from by omega, if_neg, if_false, ite_false] at hbc
        simp only [show ¬ a.toNat < c.toNat from by omega,
          show ¬ c.toNat < a.toNat from by omega, if_neg, if_false, ite_false]
        exact listCharLe_trans as bs cs (by simpa using hab) (by simpa using hbc)
      · simp [show ¬ b.toNat < c.toNat from by omega, h2] at hbc
    · simp [show ¬ a.toNat < b.toNat from by omega, h1] at hab

theorem charToNat_inj {a b : Char} (h : a.toNat = b.toNat) : a = b :=
  Char.ext (UInt32.ext h)

theorem listCharLe_antisymm : ∀ a b : List Char,
    listCharLe a b = true → listCharLe b a = true → a = b
  | [], [], _, _ => rfl
  | [], _ :: _, _, hba => by simp [listCharLe] at hba
  | _ :: _, [], hab, _ => by simp [listCharLe] at hab
  | a :: as, b :: bs, hab, hba => by
    simp only [listCharLe] at hab hba
    rcases Nat.lt_trichotomy a.toNat b.toNat with h1 | h1 | h1
    · simp [show ¬ b.toNat < a.toNat from by omega, h1] at hba
    · cases charToNat_inj h1
      simp only [show ¬ a.toNat < a.toNat from by omega, if_neg, if_false, ite_false] at hab hba
      exact congrArg (List.cons a) (listCharLe_antisymm as bs (by simpa using hab) (by simpa using hba))
    · simp [show ¬ a.toNat < b.toNat from by omega, h1] at hab

theorem string_data_inj {a b : String} (h : a.data = b.data) : a = b := by
  cases a; cases b; exact congrArg String.mk h

instance : IsTotal String strLeRel :=
  ⟨fun a b => listCharLe_total a.data b.data⟩

instance : IsTrans String strLeRel :=
  ⟨fun a b c => listCharLe_trans a.data b.data c.data⟩

instance : IsAntisymm String strLeRel :=
  ⟨fun a b hab hba => string_data_inj (listCharLe_antisymm a.data b.data hab hba)⟩

theorem sortStrings_perm (l : List String) : (sortStrings l).Perm l :=
  List.perm_insertionSort _ l

theorem sortStrings_sorted (l : List String) : List.Sorted strLeRel (sortStrings l) :=
  List.sorted_insertionSort _ l

/-- Sorting is invariant under permutation: the observable content of the
comparator's `[...xs].sort()` calls. -/
theorem sortStrings_eq_of_perm {l₁ l₂ : List String} (h : l₁.Perm l₂) :
    sortStrings l₁ = sortStrings l₂ :=
  List.eq_of_perm_of_sorted ((sortStrings_perm l₁).trans (h.trans (sortStrings_perm l₂).symm))
    (sortStrings_sorted l₁) (sortStrings_sorted l₂)

theorem perm_of_sortStrings_eq {l₁ l₂ : List String} (h : sortStrings l₁ = sortStrings l₂) :
    l₁.Perm l₂ :=
  ((sortStrings_perm l₁).symm.trans (h ▸ List.Perm.refl (sortStrings l₁))).trans (sortStrings_perm l₂)

/-! ## Catalog coherence -/

theorem catalog_coherent :
    NPM_COMMANDS.all (fun c => (resolveCommand c.name == some c) &&
      (NPM_COMMANDS.find? (fun d => d.name == c.name) == some c)) = true := by decide

/-- Every resolved command is a catalog entry. -/
theorem resolveCommand_mem {s : String} {cmd : NpmCommand} (h : resolveCommand s = some cmd) :
    cmd ∈ NPM_COMMANDS :=
  List.mem_of_find?_eq_some (by simpa [resolveCommand] using h)

/-- A catalog entry's canonical name resolves back to that entry. -/
theorem resolve_canonical {cmd : NpmCommand} (hmem : cmd ∈ NPM_COMMANDS) :
    resolveCommand cmd.name = some cmd := by
  have hall := catalog_coherent
  rw [List.all_eq_true] at hall
  have h := hall cmd hmem
  simp only [Bool.and_eq_true, beq_iff_eq] at h
  exact h.1

/-- The post-resolution lookup `NPM_COMMANDS.find(cmd => cmd.name === normalized)`
recovers exactly the resolved entry (the source's non-null assertion). -/
theorem find_resolved_command {s : String} {cmd : NpmCommand} (h : resolveCommand s = some cmd) :
    NPM_COMMANDS.find? (fun d => d.name == cmd.name) = some cmd := by
  have hall := catalog_coherent
  rw [List.all_eq_true] at hall
  have hm := hall cmd (resolveCommand_mem h)
  simp only [Bool.and_eq_true, beq_iff_eq] at hm
  exact hm.2

/-- Parsing `npm <tok> <args...>` when `tok` resolves: the shape of the
valid `ParsedCommand` the source builds. -/
theorem parseParts_resolved {tok : String} {cmd : NpmCommand} (args : List String)
    (h : resolveCommand tok = some cmd) :
    parseParts ("npm" :: tok :: args) =
      { isValid := true, command := some cmd,
        parameters := (classifyArgs cmd none args).1,
        packageNames := (classifyArgs cmd none args).2 } := by
  have hdrop : dropProgramName ("npm" :: tok :: args) = tok :: args := rfl
  have hfind := find_resolved_command h
  simp only [parseParts, hdrop, normalizeCommandName, h, Option.map_some']
  rw [hfind]

/-! ## Comparator lemmas -/

/-- When both sides are valid and name the same command, `commandsMatch`
succeeds as soon as parameters and package names agree as multisets. -/
theorem commandsMatch_of_perm {p q : ParsedCommand}
    (hp : p.isValid = true) (hq : q.isValid = true)
    (hc : p.command.map (fun c => c.name) = q.command.map (fun c => c.name))
    (hparam : p.parameters.Perm q.parameters)
    (hpkg : p.packageNames.Perm q.packageNames) :
    commandsMatch p q = { «matches» := true } := by
  have hs1 : sortStrings p.parameters = sortStrings q.parameters := sortStrings_eq_of_perm hparam
  have hs2 : sortStrings p.packageNames = sortStrings q.packageNames := sortStrings_eq_of_perm hpkg
  unfold commandsMatch
  rw [if_neg (by simp [hp, hq])]
  split_ifs with h1 h2 h3 <;> try rfl
  · exact absurd hc h3
  · simp [hs1, hs2]

/-! ## Classification lemmas -/

theorem packageTake_of_flagNoValue {cmd : NpmCommand} {prev : Option String}
    (h : ∀ p, prev = some p → flagNoValue cmd p) : packageTake cmd prev = true := by
  cases prev with
  | none => rfl
  | some p =>
    simp only [packageTake]
    by_cases hs : startsWithChar p '-'
    · simp [hs, h p rfl hs]
    · simp [hs]

/-- When no argument token resolves to a value-requiring parameter, the
classification loop is a plain partition: flag-like tokens (normalized) in
order, and the rest as package names in order. -/
theorem classifyArgs_no_consumption (cmd : NpmCommand) :
    ∀ (args : List String) (prev : Option String),
      (∀ t ∈ args, flagNoValue cmd t) →
      (∀ p, prev = some p → flagNoValue cmd p) →
      classifyArgs cmd prev args =
        ((args.filter (fun t => startsWithChar t '-')).map (normFlagToken cmd),
         args.filter (fun t => !(startsWithChar t '-')))
  | [], _, _, _ => rfl
  | [arg], prev, hargs, hprev => by
    have hflag : flagNoValue cmd arg := hargs arg (by simp)
    by_cases hs : startsWithChar arg '-'
    · by_cases he : strContainsChar arg '='
      · simp [classifyArgs, hs, he, normFlagToken]
      · simp [classifyArgs, hs, he, normFlagToken]
    · have ht : packageTake cmd prev = true := packageTake_of_flagNoValue hprev
      simp [classifyArgs, hs, ht]
  | arg :: next :: rest2, prev, hargs, hprev => by
    have hflag : flagNoValue cmd arg := hargs arg (by simp)
    have hrest : ∀ t ∈ next :: rest2, flagNoValue cmd t := fun t ht => hargs t (by simp [ht])
    have hprev' : ∀ p, some arg = some p → flagNoValue cmd p := by
      intro p hp
      cases hp
      exact hflag
    have ih := classifyArgs_no_consumption cmd (next :: rest2) (some arg) hrest hprev'
    by_cases hs : startsWithChar arg '-'
    · by_cases he : strContainsChar arg '='
      · simp [classifyArgs, hs, he, ih, normFlagToken]
      · have hrv : requiresValueOf (findParamDef cmd (normalizeParameter arg cmd) arg) = false :=
          hflag hs
        simp [classifyArgs, hs, he, hrv, ih, normFlagToken]
    · have ht : packageTake cmd prev = true := packageTake_of_flagNoValue hprev
      simp [classifyArgs, hs, ht, ih]

/-! ## Tokenizer lemmas -/

/-- Inside a quoted span every character short of the closing quote is
appended to the current token, spaces included. -/
theorem smartSplitAux_inQuotes (q : Char) :
    ∀ (mid rest cur : List Char), q ∉ mid →
      smartSplitAux true q cur (mid ++ rest) = smartSplitAux true q (cur ++ mid) rest
  | [], rest, cur, _ => by simp
  | c :: mid, rest, cur, hq => by
    simp only [List.mem_cons, not_or] at hq
    obtain ⟨hqc, hqmid⟩ := hq
    simp only [List.cons_append, smartSplitAux]
    rw [if_neg (by simp), if_neg (by simp [Ne.symm hqc]), if_neg (by simp)]
    rw [show mid.append rest = mid ++ rest from rfl,
      smartSplitAux_inQuotes q mid rest (cur ++ [c]) hqmid]
    simp

/-- Outside quotes, on quote-free input, the tokenizer is the plain
space-run splitter. -/
theorem smartSplitAux_no_quotes :
    ∀ (l cur : List Char), (∀ c ∈ l, c ≠ '"' ∧ c ≠ '\'') →
      smartSplitAux false ' ' cur l = spaceSplitAux cur l
  | [], _, _ => rfl
  | c :: l, cur, h => by
    obtain ⟨h1, h2⟩ := h c (by simp)
    have hrest : ∀ d ∈ l, d ≠ '"' ∧ d ≠ '\'' := fun d hd => h d (by simp [hd])
    simp only [smartSplitAux, spaceSplitAux]
    rw [if_neg (by simp [h1, h2]), if_neg (by simp)]
    by_cases hsp : c = ' '
    · rw [if_pos (by simp [hsp]), if_pos hsp]
      by_cases hcur : cur = []
      · simp [hcur, smartSplitAux_no_quotes l [] hrest]
      · simp [hcur, smartSplitAux_no_quotes l [] hrest]
    · rw [if_neg (by simp [hsp]), if_neg hsp]
      exact smartSplitAux_no_quotes l (cur ++ [c]) hrest

/-! ## Distinctness of parser error messages -/

theorem unknown_msg_ne (t s : String) (hs : s.data.head? ≠ some 'U') :
    "Unknown command: " ++ t ≠ s := by
  intro h
  apply hs
  have h2 := congrArg String.data h
  rw [String.data_append] at h2
  rw [← h2]
  rfl

/-! ## Claim theorems -/

/-- C1: the catalog declares `-D` as an alias of `--save-dev` for `install`,
but parsing records the token `-D` verbatim (the lowercased input can never
equal the mixed-case alias), so the spec's concrete scenario — expected
`npm install lodash express --save-dev` against actual
`npm i -D express lodash` — yields `matches: false` with reason
`Different parameters` instead of the documented `matches: true`. -/
theorem save_dev_alias_case_bug :
    (∃ c ∈ NPM_COMMANDS, c.name = "install" ∧
      ∃ p ∈ c.parameters, p.name = "--save-dev" ∧ "-D" ∈ p.aliases)
    ∧ (parseCommand "npm i -D express lodash").parameters = ["-D"]
    ∧ commandsMatch (parseCommand "npm install lodash express --save-dev")
        (parseCommand "npm i -D express lodash")
        = { «matches» := false, reason := some "Different parameters" } :=
  ⟨by decide, rfl, rfl⟩

/-- C2 counterexample: duplicate flags do not collapse — `npm install lodash -g -g`
parses with the flag list `["-g", "-g"]` and fails to match
`npm install lodash -g` with reason `Different number of parameters`. -/
theorem duplicate_flags_counterexample :
    (parseCommand "npm install lodash -g -g").parameters = ["-g", "-g"]
    ∧ commandsMatch (parseCommand "npm install lodash -g -g")
        (parseCommand "npm install lodash -g")
        = { «matches» := false, reason := some "Different number of parameters" } :=
  ⟨rfl, rfl⟩

/-- C2 amended: the flags of a `ParsedCommand` behave as a multiset, not a
set: for two valid commands naming the same catalog entry, `commandsMatch`
succeeds exactly when the flag lists and the positional lists are
permutations of each other, multiplicity included. -/
theorem flags_compared_with_multiplicity (p q : ParsedCommand)
    (hp : p.isValid = true) (hq : q.isValid = true)
    (hc : p.command.map (fun c => c.name) = q.command.map (fun c => c.name)) :
    (commandsMatch p q).«matches» = true ↔
      p.parameters.Perm q.parameters ∧ p.packageNames.Perm q.packageNames := by
  constructor
  · intro h
    unfold commandsMatch at h
    rw [if_neg (by simp [hp, hq])] at h
    have hC2 : ¬ (optCmdName p ∈ shortcutCommands ∧
        q.command.map (fun c => c.name) = some "run" ∧ optCmdName p ∈ q.packageNames) := by
      rintro ⟨hsc, hrun, -⟩
      rw [hrun] at hc
      have h5 : optCmdName p = "run" := by simp [optCmdName, hc]
      rw [h5] at hsc
      exact absurd hsc (by decide)
    have hC3 : ¬ (p.command.map (fun c => c.name) = some "run" ∧
        p.packageNames.length = 1 ∧ p.packageNames.headD "" ∈ shortcutCommands ∧
        q.command.map (fun c => c.name) = some (p.packageNames.headD "")) := by
      rintro ⟨hrun, -, hsc, hq2⟩
      rw [← hc, hrun] at hq2
      have h6 : p.packageNames.headD "" = "run" := by
        have := Option.some.inj hq2
        exact this.symm
      rw [h6] at hsc
      exact absurd hsc (by decide)
    rw [if_neg hC2, if_neg hC3, if_neg (by simp [hc])] at h
    simp only at h
    split_ifs at h with hlen hne hlen2 hne2
    push_neg at hne hne2
    exact ⟨perm_of_sortStrings_eq hne, perm_of_sortStrings_eq hne2⟩
  · rintro ⟨h1, h2⟩
    rw [commandsMatch_of_perm hp hq hc h1 h2]

/-- C3: lifecycle-shortcut equivalence — a shortcut command matches `run`
with that shortcut among its positionals regardless of any flags, and
symmetrically `run <shortcut>` (as the single positional) matches the bare
shortcut; concretely `npm <s>` and `npm run <s>` match both ways for each
shortcut `s`. -/
theorem lifecycle_shortcut_equivalence :
    (∀ (e a : ParsedCommand) (ce ca : NpmCommand),
      e.isValid = true → a.isValid = true →
      e.command = some ce → ce.name ∈ shortcutCommands →
      a.command = some ca → ca.name = "run" →
      ce.name ∈ a.packageNames →
      commandsMatch e a = { «matches» := true })
    ∧ (∀ (e a : ParsedCommand) (ce ca : NpmCommand) (s : String),
      e.isValid = true → a.isValid = true →
      e.command = some ce → ce.name = "run" →
      e.packageNames = [s] → s ∈ shortcutCommands →
      a.command = some ca → ca.name = s →
      commandsMatch e a = { «matches» := true })
    ∧ (∀ s ∈ shortcutCommands,
        (commandsMatch (parseCommand ("npm " ++ s)) (parseCommand ("npm run " ++ s))).«matches» = true
        ∧ (commandsMatch (parseCommand ("npm run " ++ s)) (parseCommand ("npm " ++ s))).«matches» = true) := by
  refine ⟨?_, ?_, by decide⟩
  · intro e a ce ca hv1 hv2 hce hsc hca hrun hmem
    unfold commandsMatch
    rw [if_neg (by simp [hv1, hv2])]
    rw [if_pos ⟨by simp [optCmdName, hce, hsc],
      by simp [hca, hrun], by simp [optCmdName, hce, hmem]⟩]
  · intro e a ce ca s hv1 hv2 hce hname hpk hsc hca hcname
    unfold commandsMatch
    rw [if_neg (by simp [hv1, hv2])]
    by_cases h1 : (optCmdName e ∈ shortcutCommands ∧
        a.command.map (fun c => c.name) = some "run" ∧ optCmdName e ∈ a.packageNames)
    · rw [if_pos h1]
    · rw [if_neg h1, if_pos ⟨by simp [hce, hname], by simp [hpk],
        by simp [hpk, hsc], by simp [hca, hcname, hpk]⟩]

theorem lifecycle_shortcut_equivalence_witness :
    commandsMatch (parseCommand "npm test") (parseCommand "npm run test") = { «matches» := true } :=
  lifecycle_shortcut_equivalence.1 (parseCommand "npm test") (parseCommand "npm run test")
    ⟨"test", ["t", "tst"], "Run tests", []⟩
    ⟨"run", ["run-script"], "Run a script from package.json",
      [⟨"--silent", [], "Suppress output", false⟩]⟩
    rfl rfl rfl (by decide) rfl rfl (by decide)

theorem flags_compared_with_multiplicity_witness :
    (commandsMatch (parseCommand "npm install lodash -g")
      (parseCommand "npm install lodash -g")).«matches» = true :=
  (flags_compared_with_multiplicity (parseCommand "npm install lodash -g")
    (parseCommand "npm install lodash -g") rfl rfl rfl).mpr ⟨List.Perm.refl _, List.Perm.refl _⟩

/-- C4 counterexample: `npm list lodash --depth` and `npm list --depth lodash`
are token permutations of each other (command kept first), yet the second
consumes `lodash` as the value of `--depth`, so the parses do not match. -/
theorem order_independence_counterexample :
    List.Perm ["lodash", "--depth"] ["--depth", "lodash"]
    ∧ (parseCommand "npm list lodash --depth").parameters = ["--depth"]
    ∧ (parseCommand "npm list lodash --depth").packageNames = ["lodash"]
    ∧ (parseCommand "npm list --depth lodash").parameters = ["--depth"]
    ∧ (parseCommand "npm list --depth lodash").packageNames = []
    ∧ commandsMatch (parseCommand "npm list lodash --depth")
        (parseCommand "npm list --depth lodash")
        = { «matches» := false, reason := some "Different number of packages" } :=
  ⟨by decide, rfl, rfl, rfl, rfl, rfl⟩

/-- C4 amended: permuting the flags and positionals of an input line (command
token kept first) is match-invariant provided no argument token resolves to a
value-requiring parameter — value consumption can otherwise reclassify a
neighboring token, as the counterexample shows.  The comparator itself treats
both lists as order-irrelevant multisets. -/
theorem order_independence_no_value_flags
    (s s' tok : String) (cmd : NpmCommand) (args args' : List String)
    (hs : smartSplit (trimStr s) = "npm" :: tok :: args)
    (hs' : smartSplit (trimStr s') = "npm" :: tok :: args')
    (hres : resolveCommand tok = some cmd)
    (hperm : args.Perm args')
    (hnv : ∀ t ∈ args, flagNoValue cmd t) :
    commandsMatch (parseCommand s) (parseCommand s') = { «matches» := true } := by
  have hnv' : ∀ t ∈ args', flagNoValue cmd t := fun t ht => hnv t (hperm.mem_iff.mpr ht)
  have h1 : parseCommand s = parseParts ("npm" :: tok :: args) := by rw [parseCommand, hs]
  have h2 : parseCommand s' = parseParts ("npm" :: tok :: args') := by rw [parseCommand, hs']
  rw [h1, h2, parseParts_resolved args hres, parseParts_resolved args' hres]
  have hcl := classifyArgs_no_consumption cmd args none hnv (by intro p hp; cases hp)
  have hcl' := classifyArgs_no_consumption cmd args' none hnv' (by intro p hp; cases hp)
  refine commandsMatch_of_perm rfl rfl rfl ?_ ?_
  · show (classifyArgs cmd none args).1.Perm (classifyArgs cmd none args').1
    rw [hcl, hcl']
    exact (hperm.filter _).map _
  · show (classifyArgs cmd none args).2.Perm (classifyArgs cmd none args').2
    rw [hcl, hcl']
    exact hperm.filter _

theorem order_independence_witness :
    commandsMatch (parseCommand "npm test -g alpha") (parseCommand "npm test alpha -g")
      = { «matches» := true } :=
  order_independence_no_value_flags "npm test -g alpha" "npm test alpha -g" "test"
    ⟨"test", ["t", "tst"], "Run tests", []⟩ ["-g", "alpha"] ["alpha", "-g"]
    rfl rfl rfl (by decide) (by decide)

/-- C5: value consumption — a flag-like token without `=` that resolves to a
value-requiring parameter consumes the next token as its value (the value is
not added to the positionals) when that token does not start with `-`; when
the next token does start with `-`, the value is simply omitted and the scan
continues with that token classified on its own. -/
theorem value_consumption_rule (cmd : NpmCommand) (prev : Option String)
    (a next : String) (rest : List String) (pd : CommandParameter)
    (ha : startsWithChar a '-' = true) (hne : strContainsChar a '=' = false)
    (hpd : findParamDef cmd (normalizeParameter a cmd) a = some pd)
    (hreq : pd.requiresValue = true) :
    (startsWithChar next '-' = false →
      classifyArgs cmd prev (a :: next :: rest) =
        (normalizeParameter a cmd :: (classifyArgs cmd (some next) rest).1,
         (classifyArgs cmd (some next) rest).2))
    ∧ (startsWithChar next '-' = true →
      classifyArgs cmd prev (a :: next :: rest) =
        (normalizeParameter a cmd :: (classifyArgs cmd (some a) (next :: rest)).1,
         (classifyArgs cmd (some a) (next :: rest)).2)) := by
  have hrv : requiresValueOf (findParamDef cmd (normalizeParameter a cmd) a) = true := by
    rw [hpd]
    simpa [requiresValueOf] using hreq
  constructor
  · intro hnext
    simp [classifyArgs, ha, hne, hrv, hnext]
  · intro hnext
    simp [classifyArgs, ha, hne, hrv, hnext]

theorem value_consumption_rule_witness :
    classifyArgs ⟨"list", ["ls", "ll", "la"], "List installed packages",
        [⟨"-g", ["--global"], "List global packages", false⟩,
         ⟨"--depth", [], "Max depth of tree", true⟩,
         ⟨"--json", [], "Output as JSON", false⟩]⟩ none ["--depth", "3"] = (["--depth"], [])
    ∧ classifyArgs ⟨"list", ["ls", "ll", "la"], "List installed packages",
        [⟨"-g", ["--global"], "List global packages", false⟩,
         ⟨"--depth", [], "Max depth of tree", true⟩,
         ⟨"--json", [], "Output as JSON", false⟩]⟩ none ["--depth", "-g"]
        = (["--depth", "-g"], []) := by
  constructor
  · have h := (value_consumption_rule ⟨"list", ["ls", "ll", "la"], "List installed packages",
      [⟨"-g", ["--global"], "List global packages", false⟩,
       ⟨"--depth", [], "Max depth of tree", true⟩,
       ⟨"--json", [], "Output as JSON", false⟩]⟩ none "--depth" "3" []
      ⟨"--depth", [], "Max depth of tree", true⟩ rfl rfl rfl rfl).1 rfl
    simpa using h
  · have h := (value_consumption_rule ⟨"list", ["ls", "ll", "la"], "List installed packages",
      [⟨"-g", ["--global"], "List global packages", false⟩,
       ⟨"--depth", [], "Max depth of tree", true⟩,
       ⟨"--json", [], "Output as JSON", false⟩]⟩ none "--depth" "-g" []
      ⟨"--depth", [], "Max depth of tree", true⟩ rfl rfl rfl rfl).2 rfl
    simpa using h

/-- C6: parse-failure taxonomy — `Empty command` exactly when tokenization of
the trimmed input is empty, `No command specified` exactly when only the
program name was present, `Unknown command: <tok>` exactly when the command
token resolves to nothing in the catalog, and `isValid = false` exactly in
these three cases; all are returned as values, never thrown. -/
theorem parse_failure_taxonomy (s : String) :
    ((parseCommand s).errorMessage = some "Empty command" ↔ smartSplit (trimStr s) = [])
    ∧ ((parseCommand s).errorMessage = some "No command specified" ↔
        smartSplit (trimStr s) ≠ [] ∧ dropProgramName (smartSplit (trimStr s)) = [])
    ∧ (∀ t rest, dropProgramName (smartSplit (trimStr s)) = t :: rest →
        ((parseCommand s).errorMessage = some ("Unknown command: " ++ t) ↔
          normalizeCommandName t = none))
    ∧ ((parseCommand s).isValid = false ↔
        (smartSplit (trimStr s) = [] ∨ dropProgramName (smartSplit (trimStr s)) = [] ∨
         ∃ t rest, dropProgramName (smartSplit (trimStr s)) = t :: rest ∧
           normalizeCommandName t = none)) := by
  simp only [parseCommand]
  rcases hparts : smartSplit (trimStr s) with _ | ⟨p, parts⟩
  · refine ⟨by simp [parseParts], by simp [parseParts], ?_, by simp [parseParts, dropProgramName]⟩
    intro t rest h
    simp [dropProgramName] at h
  · rcases hdrop : dropProgramName (p :: parts) with _ | ⟨t, args⟩
    · have hpp : parseParts (p :: parts) =
          { isValid := false, parameters := [], packageNames := [],
            errorMessage := some "No command specified" } := by
        simp [parseParts, hdrop]
      refine ⟨by simp [hpp], by simp [hpp, hdrop], ?_, by simp [hpp, hdrop]⟩
      intro t rest h
      simp at h
    · rcases hn : normalizeCommandName t with _ | n
      · have hpp : parseParts (p :: parts) =
            { isValid := false, parameters := [], packageNames := [],
              errorMessage := some ("Unknown command: " ++ t) } := by
          simp [parseParts, hdrop, hn]
        refine ⟨?_, ?_, ?_, ?_⟩
        · refine iff_of_false ?_ (by simp)
          rw [hpp]
          simp only [Option.some.injEq]
          exact unknown_msg_ne t "Empty command" (by decide)
        · refine iff_of_false ?_ (by simp [hdrop])
          rw [hpp]
          simp only [Option.some.injEq]
          exact unknown_msg_ne t "No command specified" (by decide)
        · intro t' rest' h'
          injection h' with h1 h2
          subst h1
          simp [hpp, hn]
        · rw [hpp]
          constructor
          · intro _
            exact Or.inr (Or.inr ⟨t, args, rfl, hn⟩)
          · intro _
            rfl
      · rw [normalizeCommandName] at hn
        obtain ⟨cmd, hres, hname⟩ := Option.map_eq_some'.mp hn
        subst hname
        have hfind := find_resolved_command hres
        have hpp : parseParts (p :: parts) =
            { isValid := true, command := some cmd,
              parameters := (classifyArgs cmd none args).1,
              packageNames := (classifyArgs cmd none args).2 } := by
          simp only [parseParts, hdrop, normalizeCommandName, hres, Option.map_some']
          rw [hfind]
        refine ⟨by simp [hpp], by simp [hpp, hdrop], ?_, ?_⟩
        · intro t' rest' h'
          injection h' with h1 h2
          subst h1
          refine iff_of_false (by simp [hpp]) ?_
          rw [normalizeCommandName, hres]
          simp
        · refine iff_of_false (by simp [hpp]) ?_
          rintro (hcontr | hcontr | ⟨t', rest', heq, hnone⟩)
          · exact absurd hcontr (by simp)
          · exact absurd hcontr (by simp)
          · injection heq with h1 h2
            subst h1
            rw [normalizeCommandName, hres] at hnone
            exact Option.noConfusion hnone

theorem parse_failure_taxonomy_witness :
    (parseCommand "").errorMessage = some "Empty command"
    ∧ (parseCommand "npm").errorMessage = some "No command specified"
    ∧ (parseCommand "npm frobnicate").errorMessage = some "Unknown command: frobnicate" := by
  refine ⟨(parse_failure_taxonomy "").1.mpr (by decide),
    (parse_failure_taxonomy "npm").2.1.mpr (by decide), ?_⟩
  exact ((parse_failure_taxonomy "npm frobnicate").2.2.1 "frobnicate" [] (by decide)).mpr (by decide)

/-- C7 counterexample: the tokenizer splits only on the space character, not
on every whitespace character as the specification says — a tab does not
separate tokens, diverging from the specification's whitespace tokenizer. -/
theorem whitespace_tokenize_counterexample :
    smartSplit "a\tb" = ["a\tb"]
    ∧ specTokenize "a\tb" = ["a", "b"]
    ∧ smartSplit "a\tb" ≠ specTokenize "a\tb" :=
  ⟨rfl, rfl, by decide⟩

/-- C7 amended: the tokenizer splits on unquoted runs of the space character
(other whitespace is kept inside tokens); a span opened and closed by the
same quote character is part of one token with the quote characters dropped;
an unterminated quote silently consumes to the end of the input; empty input
yields no tokens. -/
theorem tokenizer_contract :
    smartSplit "" = []
    ∧ (∀ l : List Char, (∀ c ∈ l, c ≠ '"' ∧ c ≠ '\'') →
        smartSplitAux false ' ' [] l = spaceSplit l)
    ∧ (∀ q mid, (q = '"' ∨ q = '\'') → q ∉ mid →
        smartSplitAux false ' ' [] (q :: (mid ++ [q])) = if mid = [] then [] else [mid])
    ∧ (∀ q mid, (q = '"' ∨ q = '\'') → q ∉ mid →
        smartSplitAux false ' ' [] (q :: mid) = if mid = [] then [] else [mid]) := by
  refine ⟨rfl, ?_, ?_, ?_⟩
  · intro l h
    exact smartSplitAux_no_quotes l [] h
  · intro q mid hq hmem
    rcases hq with h | h
    · subst h
      rw [show smartSplitAux false ' ' [] ('"' :: (mid ++ ['"']))
          = smartSplitAux true '"' [] (mid ++ ['"']) from rfl]
      rw [smartSplitAux_inQuotes '"' mid ['"'] [] hmem]
      simp only [List.nil_append]
      rfl
    · subst h
      rw [show smartSplitAux false ' ' [] ('\'' :: (mid ++ ['\'']))
          = smartSplitAux true '\'' [] (mid ++ ['\'']) from rfl]
      rw [smartSplitAux_inQuotes '\'' mid ['\''] [] hmem]
      simp only [List.nil_append]
      rfl
  · intro q mid hq hmem
    rcases hq with h | h
    · subst h
      rw [show smartSplitAux false ' ' [] ('"' :: mid) = smartSplitAux true '"' [] mid from rfl]
      have h2 := smartSplitAux_inQuotes '"' mid [] [] hmem
      rw [List.append_nil] at h2
      rw [h2]
      simp only [List.nil_append]
      rfl
    · subst h
      rw [show smartSplitAux false ' ' [] ('\'' :: mid) = smartSplitAux true '\'' [] mid from rfl]
      have h2 := smartSplitAux_inQuotes '\'' mid [] [] hmem
      rw [List.append_nil] at h2
      rw [h2]
      simp only [List.nil_append]
      rfl

theorem tokenizer_contract_witness :
    smartSplitAux false ' ' [] ('"' :: (['a', ' ', 'b'] ++ ['"'])) = [['a', ' ', 'b']]
    ∧ smartSplitAux false ' ' [] ['a', ' ', 'b'] = [['a'], ['b']] := by
  have h1 := tokenizer_contract.2.2.1 '"' ['a', ' ', 'b'] (Or.inl rfl) (by decide)
  have h2 := tokenizer_contract.2.1 ['a', ' ', 'b'] (by decide)
  exact ⟨by rw [h1]; rfl, by rw [h2]; rfl⟩

/-- C8 counterexample: the alias sets are not pairwise disjoint — `v` is
declared as an alias of both `version` and `view`. -/
theorem alias_sets_not_disjoint :
    ∃ c1 ∈ NPM_COMMANDS, "v" ∈ c1.aliases ∧
      ∃ c2 ∈ NPM_COMMANDS, "v" ∈ c2.aliases ∧ c1.name ≠ c2.name := by decide

/-- C8 amended: alias sets are not disjoint (`v` belongs to both `version`
and `view`), but resolution is still deterministic: `normalizeCommandName`
returns the first catalog entry matching by name or alias, so every token
resolves to at most one canonical name; in particular `v` resolves to
`version`, shadowing `view`. -/
theorem alias_resolution_first_match :
    normalizeCommandName "v" = some "version"
    ∧ (∃ c ∈ NPM_COMMANDS, c.name = "view" ∧ "v" ∈ c.aliases)
    ∧ (∀ s cmd, resolveCommand s = some cmd →
        cmd ∈ NPM_COMMANDS ∧ normalizeCommandName s = some cmd.name) := by
  refine ⟨rfl, by decide, ?_⟩
  intro s cmd h
  exact ⟨resolveCommand_mem h, by simp [normalizeCommandName, h]⟩

theorem alias_resolution_first_match_witness :
    (⟨"version", ["v"], "Display npm version",
      [⟨"--json", [], "Output as JSON", false⟩]⟩ : NpmCommand) ∈ NPM_COMMANDS
    ∧ normalizeCommandName "v" = some "version" :=
  alias_resolution_first_match.2.2 "v"
    ⟨"version", ["v"], "Display npm version", [⟨"--json", [], "Output as JSON", false⟩]⟩ rfl

/-- C9 counterexample: `v` is a declared alias of `view`, yet parsing
`npm view lodash` and `npm v lodash` (identical flags and positionals)
yields `Different command`, because `v` resolves to `version` first. -/
theorem view_alias_shadowed_counterexample :
    (∃ c ∈ NPM_COMMANDS, c.name = "view" ∧ "v" ∈ c.aliases)
    ∧ commandsMatch (parseCommand "npm view lodash") (parseCommand "npm v lodash")
        = { «matches» := false, reason := some "Different command" } :=
  ⟨by decide, rfl⟩

/-- C9 amended: for every catalog entry, parsing with its canonical name and
parsing with any token that resolves to it (case-insensitively: canonical
name or non-shadowed alias in any letter case) are `commandsMatch`-equivalent
on identical argument lists; every declared alias resolves to its own command
except `view`'s `v`, which is shadowed by `version`. -/
theorem command_alias_equivalence :
    (∀ (cmd : NpmCommand) (tok : String) (args : List String),
      resolveCommand tok = some cmd →
      commandsMatch (parseParts ("npm" :: cmd.name :: args)) (parseParts ("npm" :: tok :: args))
        = { «matches» := true })
    ∧ (∀ cmd ∈ NPM_COMMANDS, ∀ a ∈ cmd.aliases,
        (cmd.name = "view" ∧ a = "v") ∨ resolveCommand a = some cmd) := by
  constructor
  · intro cmd tok args hres
    have hcan : resolveCommand cmd.name = some cmd := resolve_canonical (resolveCommand_mem hres)
    rw [parseParts_resolved args hcan, parseParts_resolved args hres]
    exact commandsMatch_of_perm rfl rfl rfl (List.Perm.refl _) (List.Perm.refl _)
  · decide

theorem command_alias_equivalence_witness :
    commandsMatch (parseParts ["npm", "test", "alpha"]) (parseParts ["npm", "T", "alpha"])
      = { «matches» := true } :=
  command_alias_equivalence.1 ⟨"test", ["t", "tst"], "Run tests", []⟩ "T" ["alpha"] rfl

/-- C10: positional comparison is case-sensitive even though command and flag
resolution are case-insensitive — package names are stored verbatim and
compared by exact string equality, so `npm install lodash` and
`npm install Lodash` are both valid with the same command yet do not match. -/
theorem positional_case_sensitivity :
    (parseCommand "npm install lodash").isValid = true
    ∧ (parseCommand "npm install Lodash").isValid = true
    ∧ (parseCommand "npm install Lodash").packageNames = ["Lodash"]
    ∧ (parseCommand "npm install lodash").command.map (fun c => c.name) = some "install"
    ∧ (parseCommand "npm install Lodash").command.map (fun c => c.name) = some "install"
    ∧ commandsMatch (parseCommand "npm install lodash") (parseCommand "npm install Lodash")
        = { «matches» := false, reason := some "Different package names" } :=
  ⟨rfl, rfl, rfl, rfl, rfl, rfl⟩

end NpmPractice
